import Mathlib

/-!
Shallow embedding of src/sfz-router.py, a debounced MIDI Program Change
router.  The program watches a hardware controller for Program Change
messages on a fixed common channel, debounces rapid changes, and drives an
external sampler engine by writing load_instrument commands to its stdin,
persisting the last committed program number to a file.

The configuration constants, the function load_last_program, the message
decoding and the debounce commit step of the run loop in main are
translated directly from the Python source.  Monotonic time (float seconds
from time.monotonic) is modelled by the rationals; the engine stdin write
and the persistence file write are modelled by per-tick success oracles;
the persisted file is modelled by an optional string.  A Python IndexError
while indexing into a received message is modelled by the value none.
-/

/- Batteries marks the rational operations irreducible, which blocks
evaluation of concrete runs by the decide tactic; restore the default
reducibility for this file. -/
attribute [local semireducible] Rat.sub Rat.add Rat.mul Rat.inv

namespace SfzRouter

/-! ## Configuration (src/sfz-router.py, USER CONFIG block) -/

/-- Common MIDI channel used by the SL88 as COMMON CHANNEL (1-16). -/
def COMMON_CHANNEL : Nat := 1

/-- Zero-based MIDI channel: COMMON_CHANNEL - 1 (computed in main and in
force_initial_program). -/
def commonMidiChannel : Nat := COMMON_CHANNEL - 1

/-- Program -> SFZ mapping.  A Python dict with the insertion order and
exact entries of SFZ_MAP in the source; keys are Python ints. -/
def SFZ_MAP : List (Int × String) := [
  (10, "/root/sfz/Wurlitzer/Wurlitzer.sfz"),
  (11, "/root/sfz/Clavinet/Clavinet.sfz"),
  (12, "/root/sfz/K18-Upright-Piano/K18-Upright-Piano.sfz"),
  (13, "/root/sfz/SalamanderGrandPianoV6/sfz_daw/Accurate-SalamanderGrandPiano_flat.Recommended.sfz"),
  (14, "/root/sfz/GregSullivan.E-Pianos-master/PianetT/PianetT.sfz"),
  (15, "/root/sfz/GregSullivan.E-Pianos-master/EP200/EP200.sfz"),
  (16, "/root/sfz/jRhodes3d/jlearman.jRhodes3d-master/jRhodes3d-st/_jRhodes3d-st-flac.sfz")]

/-- How long to wait after the last Program Change before loading (0.50 s). -/
def DEBOUNCE_SECONDS : ℚ := mkRat 1 2

/-- Dict lookup SFZ_MAP[program] as an optional value. -/
def lookupSfz (p : Int) : Option String := SFZ_MAP.lookup p

/-- The Python membership test: program in SFZ_MAP. -/
def inMap (p : Int) : Bool := (lookupSfz p).isSome

/-! ## load_last_program (src/sfz-router.py lines 59-75)

The file system is abstracted: the argument none stands for a missing or
unreadable file (os.path.exists false, or an open/read error absorbed by
the except branch), some content for a readable file with that text. -/

/-- Python str.strip default whitespace characters. -/
def isPySpace (c : Char) : Bool :=
  c == ' ' || c == '\t' || c == '\n' || c == '\r' || c == '\x0b' || c == '\x0c'

/-- Python str.strip: remove leading and trailing whitespace. -/
def pyStrip (s : String) : String :=
  ⟨((s.data.dropWhile isPySpace).reverse.dropWhile isPySpace).reverse⟩

/-- Value of a decimal digit character. -/
def digitVal (c : Char) : Nat := c.toNat - 48

/-- Parse a nonempty all-digit character list as a natural number. -/
def parseDigits : List Char → Option Nat
  | [] => none
  | cs => if cs.all Char.isDigit then
      some (cs.foldl (fun acc c => acc * 10 + digitVal c) 0)
    else none

/-- Model of the Python int constructor on an already stripped string:
an optional sign followed by at least one digit; anything else raises,
which the caller absorbs.  (Python additionally allows underscore digit
separators; no claim depends on those inputs.) -/
def parseInt (s : String) : Option Int :=
  match s.data with
  | '+' :: rest => (parseDigits rest).map (fun n => (n : Int))
  | '-' :: rest => (parseDigits rest).map (fun n => -(n : Int))
  | cs => (parseDigits cs).map (fun n => (n : Int))

/-- load_last_program: read the last-used program from disk; on a missing
file, a parse failure (the except branch) or a value outside SFZ_MAP,
return the default program 10 (P011). -/
def load_last_program (file : Option String) : Int :=
  match file with
  | none => 10
  | some content =>
    match parseInt (pyStrip content) with
    | none => 10
    | some val => if inMap val then val else 10

/-! ## Run-loop state and tick inputs (src/sfz-router.py lines 252-300) -/

/-- The mutable state of the run loop in main, plus the persisted file.
current_program is what sfizz is actually using, last_requested_program
the last program seen from the SL88, last_request_time when it was seen.
persisted models the contents of LAST_PROG_FILE, written by
save_last_program as the decimal string of the program. -/
structure RouterState where
  current_program : Int
  last_requested_program : Int
  last_request_time : ℚ
  persisted : Option String
deriving DecidableEq

/-- The external inputs consumed by one iteration of the while loop:
msg is the optional raw byte list from midiin.get_message (none when no
message is pending); tEvent is the value of time.monotonic() taken while
handling the event, tCheck the value taken at the debounce check; sendOk
tells whether the sfizz stdin write and flush succeed, saveOk whether the
save_last_program file write succeeds. -/
structure Tick where
  msg : Option (List Nat)
  tEvent : ℚ
  tCheck : ℚ
  sendOk : Bool
  saveOk : Bool

/-- Decode a raw message the way the loop body indexes into it:
status = data[0]; if (status AND 0xF0) == 0xC0 and (status AND 0x0F) ==
common_midi_channel then program = data[1].  Result none models a Python
IndexError (data[0] or data[1] out of range), some none a message that is
not a qualifying Program Change, some (some p) a qualifying Program
Change carrying program p. -/
def decode : List Nat → Option (Option Int)
  | [] => none
  | status :: rest =>
    if status &&& 0xF0 == 0xC0 && status &&& 0x0F == commonMidiChannel then
      match rest with
      | [] => none
      | program :: _ => some (some (program : Int))
    else some none

/-- The event-handling half of a loop iteration (lines 262-275): a
qualifying Program Change overwrites last_requested_program and
last_request_time unconditionally; any other message leaves the state
unchanged; an out-of-range index faults (none). -/
def handleMessage (data : List Nat) (now : ℚ) (s : RouterState) :
    Option RouterState :=
  match decode data with
  | none => none
  | some none => some s
  | some (some program) =>
    some { s with last_requested_program := program, last_request_time := now }

/-- The debounce check and commit half of a loop iteration (lines
279-297).  If last_requested_program is a key of SFZ_MAP, differs from
current_program, and at least DEBOUNCE_SECONDS have passed since
last_request_time, then: persist the program (best effort), write the
load_instrument command to sfizz stdin, and on send success update
current_program.  The second component is the load command written this
tick (program, command text, send success), none when no commit fires. -/
def debounceCheck (t : Tick) (s : RouterState) :
    RouterState × Option (Int × String × Bool) :=
  match lookupSfz s.last_requested_program with
  | none => (s, none)
  | some sfz_path =>
    if s.last_requested_program ≠ s.current_program ∧
        DEBOUNCE_SECONDS ≤ t.tCheck - s.last_request_time then
      let s1 := if t.saveOk then
          { s with persisted := some (toString s.last_requested_program) }
        else s
      let s2 := if t.sendOk then
          { s1 with current_program := s.last_requested_program }
        else s1
      (s2, some (s.last_requested_program,
                 "load_instrument " ++ sfz_path ++ "\n", t.sendOk))
    else (s, none)

/-- One full iteration of the while loop: handle at most one message, then
run the debounce check.  none models the loop crashing on an IndexError. -/
def stepTick (t : Tick) (s : RouterState) :
    Option (RouterState × Option (Int × String × Bool)) :=
  match t.msg with
  | none => some (debounceCheck t s)
  | some data =>
    match handleMessage data t.tEvent s with
    | none => none
    | some s1 => some (debounceCheck t s1)

/-- Run the loop over a list of tick inputs, collecting every load command
written to the engine.  none models a crash at some tick. -/
def runTicks (s : RouterState) :
    List Tick → Option (RouterState × List (Int × String × Bool))
  | [] => some (s, [])
  | t :: ts =>
    match stepTick t s with
    | none => none
    | some (s1, out) =>
      match runTicks s1 ts with
      | none => none
      | some (sF, outs) => some (sF, out.toList ++ outs)

/-- The state main builds before entering the loop (lines 237, 255-257):
current_program and last_requested_program are both the result of
load_last_program, last_request_time the current monotonic time; the
persisted file is whatever it already contained. -/
def initialState (file : Option String) (t0 : ℚ) : RouterState :=
  { current_program := load_last_program file,
    last_requested_program := load_last_program file,
    last_request_time := t0,
    persisted := file }

/-! ## Specification-side predicates over tick lists -/

/-- Monotonic time: given a lower bound, each tick reads its event time at
or after the bound, its check time at or after its event time, and bounds
the following ticks by its check time. -/
def TimesMono : ℚ → List Tick → Bool
  | _, [] => true
  | lb, t :: ts =>
    decide (lb ≤ t.tEvent) && decide (t.tEvent ≤ t.tCheck) && TimesMono t.tCheck ts

/-- The qualifying Program Change events of a tick list, in order, as
(program, event time) pairs. -/
def qualEvents : List Tick → List (Int × ℚ)
  | [] => []
  | t :: ts =>
    match t.msg with
    | none => qualEvents ts
    | some data =>
      match decode data with
      | some (some program) => (program, t.tEvent) :: qualEvents ts
      | _ => qualEvents ts

/-- Consecutive qualifying events are separated by less than the debounce
window. -/
def ConsecGaps : List (Int × ℚ) → Bool
  | [] => true
  | [_] => true
  | (_, t1) :: (p2, t2) :: rest =>
    decide (t2 - t1 < DEBOUNCE_SECONDS) && ConsecGaps ((p2, t2) :: rest)

/-- The program of the last event of the list, or the default d when the
list is empty. -/
def finalProg (d : Int) (evs : List (Int × ℚ)) : Int :=
  ((evs.getLast?).map Prod.fst).getD d

/-- No commit can fire before the next pending event: either nothing is
pending (the last requested program is the current one), or the next
event arrives within the debounce window of the pending request. -/
def Blocked (s : RouterState) : List (Int × ℚ) → Bool
  | [] => true
  | (_, t1) :: _ =>
    (s.last_requested_program == s.current_program) ||
      decide (t1 - s.last_request_time < DEBOUNCE_SECONDS)

/-- The tick carries no qualifying Program Change: no message, or a
well-formed message that decodes as non-qualifying. -/
def NoQualTick (t : Tick) : Bool :=
  match t.msg with
  | none => true
  | some data => decode data == some none

/-- Every message of the tick is well formed and every qualifying Program
Change it carries is for program p. -/
def TickSeesOnly (p : Int) (t : Tick) : Bool :=
  match t.msg with
  | none => true
  | some data => decode data == some none || decode data == some (some p)

/-! ## Helper lemmas about one debounce check -/

/-- No commit fires when the last requested program is already current. -/
lemma debounceCheck_skip_of_eq (t : Tick) (s : RouterState)
    (h : s.last_requested_program = s.current_program) :
    debounceCheck t s = (s, none) := by
  unfold debounceCheck
  cases hl : lookupSfz s.last_requested_program with
  | none => rfl
  | some path => exact if_neg (fun hc => hc.1 h)

/-- No commit fires when the last requested program is not a key. -/
lemma debounceCheck_skip_of_unmapped (t : Tick) (s : RouterState)
    (h : lookupSfz s.last_requested_program = none) :
    debounceCheck t s = (s, none) := by
  unfold debounceCheck
  rw [h]

/-- No commit fires inside the debounce window. -/
lemma debounceCheck_skip_of_time (t : Tick) (s : RouterState)
    (h : t.tCheck - s.last_request_time < DEBOUNCE_SECONDS) :
    debounceCheck t s = (s, none) := by
  unfold debounceCheck
  cases hl : lookupSfz s.last_requested_program with
  | none => rfl
  | some path => exact if_neg (fun hc => absurd hc.2 (not_le.mpr h))

/-- The commit branch, fully evaluated. -/
lemma debounceCheck_commit (t : Tick) (s : RouterState) (path : String)
    (hl : lookupSfz s.last_requested_program = some path)
    (hne : s.last_requested_program ≠ s.current_program)
    (ht : DEBOUNCE_SECONDS ≤ t.tCheck - s.last_request_time) :
    debounceCheck t s =
      ({ s with
          persisted := if t.saveOk then some (toString s.last_requested_program)
            else s.persisted,
          current_program := if t.sendOk then s.last_requested_program
            else s.current_program },
       some (s.last_requested_program, "load_instrument " ++ path ++ "\n",
             t.sendOk)) := by
  unfold debounceCheck
  simp only [hl]
  rw [if_pos (show _ ∧ _ from ⟨hne, ht⟩)]
  cases hsave : t.saveOk <;> cases hsend : t.sendOk <;> simp [hsave, hsend]

/-- The check phase never changes the pending request, and any command it
emits carries the pending program. -/
lemma debounceCheck_frame (t : Tick) (s : RouterState) :
    (debounceCheck t s).1.last_requested_program = s.last_requested_program ∧
    (debounceCheck t s).1.last_request_time = s.last_request_time ∧
    ∀ q c ok, (debounceCheck t s).2 = some (q, c, ok) →
      q = s.last_requested_program := by
  rcases hl : lookupSfz s.last_requested_program with _ | path
  · rw [debounceCheck_skip_of_unmapped t s hl]; simp
  · by_cases hc : s.last_requested_program ≠ s.current_program ∧
        DEBOUNCE_SECONDS ≤ t.tCheck - s.last_request_time
    · rw [debounceCheck_commit t s path hl hc.1 hc.2]
      simp
    · rcases not_and_or.mp hc with h | h
      · rw [debounceCheck_skip_of_eq t s (not_not.mp h)]; simp
      · rw [debounceCheck_skip_of_time t s (not_le.mp h)]; simp

/-- Everything a fired commit tells us about its inputs and outputs. -/
lemma debounceCheck_commit_inv (t : Tick) (s s' : RouterState) (q : Int)
    (c : String) (ok : Bool)
    (h : debounceCheck t s = (s', some (q, c, ok))) :
    q = s.last_requested_program ∧ ok = t.sendOk ∧
    (∃ path, lookupSfz s.last_requested_program = some path ∧
      c = "load_instrument " ++ path ++ "\n") ∧
    s.last_requested_program ≠ s.current_program ∧
    DEBOUNCE_SECONDS ≤ t.tCheck - s.last_request_time ∧
    s'.last_requested_program = s.last_requested_program ∧
    s'.last_request_time = s.last_request_time ∧
    s'.current_program =
      (if t.sendOk then s.last_requested_program else s.current_program) ∧
    s'.persisted =
      (if t.saveOk then some (toString s.last_requested_program)
        else s.persisted) := by
  rcases hl : lookupSfz s.last_requested_program with _ | path
  · rw [debounceCheck_skip_of_unmapped t s hl] at h
    simp at h
  · by_cases hc : s.last_requested_program ≠ s.current_program ∧
        DEBOUNCE_SECONDS ≤ t.tCheck - s.last_request_time
    · rw [debounceCheck_commit t s path hl hc.1 hc.2] at h
      simp only [Prod.mk.injEq, Option.some.injEq] at h
      obtain ⟨hs, hq, hcm, hok⟩ := h
      exact ⟨hq.symm, hok.symm, ⟨path, by simp [hl], hcm.symm⟩, hc.1, hc.2,
        by rw [← hs], by rw [← hs], by rw [← hs], by rw [← hs]⟩
    · rcases not_and_or.mp hc with hx | hx
      · rw [debounceCheck_skip_of_eq t s (not_not.mp hx)] at h
        simp at h
      · rw [debounceCheck_skip_of_time t s (not_le.mp hx)] at h
        simp at h

/-- A full loop iteration factors through a post-event state that differs
from the input state only in the pending request fields. -/
lemma stepTick_via (t : Tick) (s s' : RouterState)
    (out : Option (Int × String × Bool)) (h : stepTick t s = some (s', out)) :
    ∃ sE : RouterState, sE.current_program = s.current_program ∧
      sE.persisted = s.persisted ∧ debounceCheck t sE = (s', out) := by
  rcases hm : t.msg with _ | data
  · simp only [stepTick, hm, Option.some.injEq] at h
    exact ⟨s, rfl, rfl, h⟩
  · rcases hd : decode data with _ | ev
    · simp only [stepTick, hm, handleMessage, hd] at h
      exact Option.noConfusion h
    · cases ev with
      | none =>
        simp only [stepTick, hm, handleMessage, hd, Option.some.injEq] at h
        exact ⟨s, rfl, rfl, h⟩
      | some program =>
        simp only [stepTick, hm, handleMessage, hd, Option.some.injEq] at h
        exact ⟨{ s with last_requested_program := program,
                        last_request_time := t.tEvent },
               rfl, rfl, h⟩

/-! ## Helper lemmas about event lists and runs -/

/-- Under monotonic time, the first qualifying event of a tick list is no
earlier than the lower bound. -/
lemma qualEvents_head_le : ∀ (ts : List Tick) (lb : ℚ) (p : Int) (tq : ℚ)
    (rest : List (Int × ℚ)), TimesMono lb ts = true →
    qualEvents ts = (p, tq) :: rest → lb ≤ tq := by
  intro ts
  induction ts with
  | nil =>
    intro lb p tq rest _ hq
    simp [qualEvents] at hq
  | cons t ts ih =>
    intro lb p tq rest hm hq
    simp only [TimesMono, Bool.and_eq_true, decide_eq_true_eq] at hm
    obtain ⟨⟨h1, h2⟩, h3⟩ := hm
    rcases hmsg : t.msg with _ | data
    · simp only [qualEvents, hmsg] at hq
      exact le_trans (le_trans h1 h2) (ih t.tCheck p tq rest h3 hq)
    · rcases hd : decode data with _ | ev
      · simp only [qualEvents, hmsg, hd] at hq
        exact le_trans (le_trans h1 h2) (ih t.tCheck p tq rest h3 hq)
      · cases ev with
        | none =>
          simp only [qualEvents, hmsg, hd] at hq
          exact le_trans (le_trans h1 h2) (ih t.tCheck p tq rest h3 hq)
        | some program =>
          simp only [qualEvents, hmsg, hd, List.cons.injEq, Prod.mk.injEq] at hq
          obtain ⟨⟨-, hte⟩, -⟩ := hq
          exact hte ▸ h1

/-- Splitting the gap condition at the head of an event list. -/
lemma consecGaps_cons (e : Int × ℚ) (l : List (Int × ℚ))
    (h : ConsecGaps (e :: l) = true) :
    ConsecGaps l = true ∧
      ∀ p2 t2 r, l = (p2, t2) :: r → t2 - e.2 < DEBOUNCE_SECONDS := by
  obtain ⟨pe, te⟩ := e
  cases l with
  | nil =>
    refine ⟨rfl, ?_⟩
    intro p2 t2 r h2
    exact List.noConfusion h2
  | cons e2 l2 =>
    obtain ⟨pe2, te2⟩ := e2
    simp only [ConsecGaps, Bool.and_eq_true, decide_eq_true_eq] at h
    refine ⟨h.2, ?_⟩
    intro p2 t2 r h2
    simp only [List.cons.injEq, Prod.mk.injEq] at h2
    obtain ⟨⟨-, ht2⟩, -⟩ := h2
    exact ht2 ▸ h.1

/-- The final program of a nonempty event list ignores the default. -/
lemma finalProg_cons : ∀ (l : List (Int × ℚ)) (d p : Int) (tq : ℚ),
    finalProg d ((p, tq) :: l) = finalProg p l := by
  intro l
  induction l with
  | nil => intro d p tq; rfl
  | cons e l2 ih =>
    intro d p tq
    obtain ⟨pe, te⟩ := e
    have h1 : finalProg d ((p, tq) :: (pe, te) :: l2) =
        finalProg d ((pe, te) :: l2) := by
      simp [finalProg, List.getLast?_cons_cons]
    rw [h1, ih d pe te, ← ih p pe te]

/-- Main coalescing lemma: as long as each pending request is either
already current or chased by another qualifying event within the debounce
window, every command a run emits is for the final requested program. -/
lemma run_coalesce : ∀ (ts : List Tick) (s : RouterState) (lb : ℚ)
    (sF : RouterState) (outs : List (Int × String × Bool)),
    runTicks s ts = some (sF, outs) →
    TimesMono lb ts = true →
    ConsecGaps (qualEvents ts) = true →
    Blocked s (qualEvents ts) = true →
    ∀ q c ok, (q, c, ok) ∈ outs →
      q = finalProg s.last_requested_program (qualEvents ts) := by
  intro ts
  induction ts with
  | nil =>
    intro s lb sF outs hrun _ _ _ q c ok hmem
    simp only [runTicks, Option.some.injEq, Prod.mk.injEq] at hrun
    obtain ⟨-, houts⟩ := hrun
    rw [← houts] at hmem
    exact absurd hmem (List.not_mem_nil _)
  | cons t ts ih =>
    intro s lb sF outs hrun hmono hgaps hblock q c ok hmem
    simp only [TimesMono, Bool.and_eq_true, decide_eq_true_eq] at hmono
    obtain ⟨⟨hlb, hec⟩, hmono'⟩ := hmono
    rcases hstep : stepTick t s with _ | ⟨s1, out⟩
    · rw [runTicks, hstep] at hrun
      exact Option.noConfusion hrun
    · rcases hrec : runTicks s1 ts with _ | ⟨sF', outs'⟩
      · simp only [runTicks, hstep, hrec] at hrun
        exact Option.noConfusion hrun
      · simp only [runTicks, hstep, hrec, Option.some.injEq,
          Prod.mk.injEq] at hrun
        obtain ⟨-, houts⟩ := hrun
        rw [← houts] at hmem
        -- the event phase either leaves the state alone or records one event
        have hsplit : (debounceCheck t s = (s1, out) ∧
            qualEvents (t :: ts) = qualEvents ts) ∨
            (∃ pr : Int, debounceCheck t { s with
                last_requested_program := pr,
                last_request_time := t.tEvent } = (s1, out) ∧
              qualEvents (t :: ts) = (pr, t.tEvent) :: qualEvents ts) := by
          rcases hmsg : t.msg with _ | data
          · left
            refine ⟨?_, by simp [qualEvents, hmsg]⟩
            have h0 := hstep
            simp only [stepTick, hmsg, Option.some.injEq] at h0
            exact h0
          · rcases hd : decode data with _ | ev
            · have h0 := hstep
              simp only [stepTick, hmsg, handleMessage, hd] at h0
              exact Option.noConfusion h0
            · cases ev with
              | none =>
                left
                refine ⟨?_, by simp [qualEvents, hmsg, hd]⟩
                have h0 := hstep
                simp only [stepTick, hmsg, handleMessage, hd,
                  Option.some.injEq] at h0
                exact h0
              | some pr =>
                right
                refine ⟨pr, ?_, by simp [qualEvents, hmsg, hd]⟩
                have h0 := hstep
                simp only [stepTick, hmsg, handleMessage, hd,
                  Option.some.injEq] at h0
                exact h0
        rcases hsplit with ⟨hdc, hqEq⟩ | ⟨pr, hdc, hqEq⟩
        · -- no qualifying event this tick
          rw [hqEq] at hgaps hblock ⊢
          rcases hqe : qualEvents ts with _ | ⟨⟨p1, t1⟩, evr⟩
          · -- no event remains: any commit carries the pending program
            obtain ⟨hflrp, hflrt, hfq⟩ := debounceCheck_frame t s
            rw [hdc] at hflrp hflrt hfq
            have hflrp2 : s1.last_requested_program =
                s.last_requested_program := hflrp
            have hfq2 : ∀ q2 c2 ok2, out = some (q2, c2, ok2) →
                q2 = s.last_requested_program := hfq
            rcases List.mem_append.mp hmem with hin | hin
            · cases out with
              | none => exact absurd hin (List.not_mem_nil _)
              | some tr =>
                rcases List.mem_singleton.mp hin with rfl
                exact hfq2 q c ok rfl
            · have hih := ih s1 t.tCheck sF' outs' hrec hmono'
                (by rw [hqe]; rfl) (by rw [hqe]; rfl) q c ok hin
              rw [hqe] at hih
              exact hih.trans hflrp2
          · -- an event is still due: this check cannot fire
            have hnc : debounceCheck t s = (s, none) := by
              have hb := hblock
              rw [hqe] at hb
              simp only [Blocked, Bool.or_eq_true, beq_iff_eq,
                decide_eq_true_eq] at hb
              rcases hb with hb | hb
              · exact debounceCheck_skip_of_eq t s hb
              · have hle : t.tCheck ≤ t1 :=
                  qualEvents_head_le ts t.tCheck p1 t1 evr hmono' hqe
                exact debounceCheck_skip_of_time t s (by linarith)
            rw [hnc] at hdc
            simp only [Prod.mk.injEq] at hdc
            obtain ⟨hs1, hout⟩ := hdc
            rw [← hout] at hmem
            simp only [Option.toList_none, List.nil_append] at hmem
            have hih := ih s1 t.tCheck sF' outs' hrec hmono' hgaps
              (by rw [← hs1]; exact hblock) q c ok hmem
            rw [← hs1, hqe] at hih
            exact hih
        · -- a qualifying event (pr, tEvent) was recorded this tick
          rw [hqEq] at hgaps ⊢
          obtain ⟨hgaps', hgapfst⟩ :=
            consecGaps_cons (pr, t.tEvent) (qualEvents ts) hgaps
          rw [finalProg_cons]
          rcases hqe : qualEvents ts with _ | ⟨⟨p2, t2⟩, evr⟩
          · -- this was the final event
            obtain ⟨hflrp, hflrt, hfq⟩ := debounceCheck_frame t
              { s with last_requested_program := pr,
                       last_request_time := t.tEvent }
            rw [hdc] at hflrp hflrt hfq
            have hflrp2 : s1.last_requested_program = pr := hflrp
            have hfq2 : ∀ q2 c2 ok2, out = some (q2, c2, ok2) →
                q2 = pr := hfq
            rcases List.mem_append.mp hmem with hin | hin
            · cases out with
              | none => exact absurd hin (List.not_mem_nil _)
              | some tr =>
                rcases List.mem_singleton.mp hin with rfl
                exact hfq2 q c ok rfl
            · have hih := ih s1 t.tCheck sF' outs' hrec hmono'
                (by rw [hqe]; rfl) (by rw [hqe]; rfl) q c ok hin
              rw [hqe] at hih
              exact hih.trans hflrp2
          · -- another event follows within the window: no commit yet
            have hnc : debounceCheck t { s with
                last_requested_program := pr,
                last_request_time := t.tEvent } =
                ({ s with last_requested_program := pr,
                          last_request_time := t.tEvent }, none) := by
              have hle : t.tCheck ≤ t2 :=
                qualEvents_head_le ts t.tCheck p2 t2 evr hmono' hqe
              have hgap : t2 - t.tEvent < DEBOUNCE_SECONDS :=
                hgapfst p2 t2 evr hqe
              exact debounceCheck_skip_of_time t _
                (show t.tCheck - t.tEvent < DEBOUNCE_SECONDS by linarith)
            rw [hnc] at hdc
            simp only [Prod.mk.injEq] at hdc
            obtain ⟨hs1, hout⟩ := hdc
            rw [← hout] at hmem
            simp only [Option.toList_none, List.nil_append] at hmem
            have hbE : Blocked s1 (qualEvents ts) = true := by
              rw [← hs1, hqe]
              simp only [Blocked, Bool.or_eq_true, decide_eq_true_eq]
              right
              show t2 - t.tEvent < DEBOUNCE_SECONDS
              exact hgapfst p2 t2 evr hqe
            have hih := ih s1 t.tCheck sF' outs' hrec hmono' hgaps'
              hbE q c ok hmem
            rw [← hs1, hqe] at hih
            exact hih

/-- A run whose ticks carry no qualifying event leaves a settled state
(pending request equal to the current program) completely unchanged and
writes nothing to the engine. -/
lemma quiet_run : ∀ (ts : List Tick) (s : RouterState),
    s.last_requested_program = s.current_program →
    (∀ t ∈ ts, NoQualTick t = true) →
    runTicks s ts = some (s, []) := by
  intro ts
  induction ts with
  | nil => intro s _ _; rfl
  | cons t ts ih =>
    intro s hs hq
    have ht := hq t (List.mem_cons_self t ts)
    have hstep : stepTick t s = some (s, none) := by
      rcases hmsg : t.msg with _ | data
      · simp only [stepTick, hmsg, Option.some.injEq]
        exact debounceCheck_skip_of_eq t s hs
      · have hd : decode data = some none := by
          simp only [NoQualTick, hmsg, beq_iff_eq] at ht
          exact ht
        simp only [stepTick, hmsg, handleMessage, hd, Option.some.injEq]
        exact debounceCheck_skip_of_eq t s hs
    have hrest := ih s hs (fun t2 h2 => hq t2 (List.mem_cons_of_mem t h2))
    simp only [runTicks, hstep, hrest, Option.toList_none, List.nil_append]

/-- A run that only ever sees Program Changes repeating the already
current program p emits nothing and keeps p current and pending. -/
lemma seesOnly_run : ∀ (ts : List Tick) (s : RouterState) (p : Int),
    s.current_program = p → s.last_requested_program = p →
    (∀ t ∈ ts, TickSeesOnly p t = true) →
    ∃ sF, runTicks s ts = some (sF, []) ∧
      sF.current_program = p ∧ sF.last_requested_program = p := by
  intro ts
  induction ts with
  | nil => intro s p hc hl _; exact ⟨s, rfl, hc, hl⟩
  | cons t ts ih =>
    intro s p hc hl hq
    have ht := hq t (List.mem_cons_self t ts)
    have hstep : ∃ sE : RouterState, stepTick t s = some (sE, none) ∧
        sE.current_program = p ∧ sE.last_requested_program = p := by
      rcases hmsg : t.msg with _ | data
      · refine ⟨s, ?_, hc, hl⟩
        simp only [stepTick, hmsg, Option.some.injEq]
        exact debounceCheck_skip_of_eq t s (hl.trans hc.symm)
      · simp only [TickSeesOnly, hmsg, Bool.or_eq_true, beq_iff_eq] at ht
        rcases ht with hd | hd
        · refine ⟨s, ?_, hc, hl⟩
          simp only [stepTick, hmsg, handleMessage, hd, Option.some.injEq]
          exact debounceCheck_skip_of_eq t s (hl.trans hc.symm)
        · refine ⟨{ s with last_requested_program := p,
                           last_request_time := t.tEvent }, ?_, hc, rfl⟩
          simp only [stepTick, hmsg, handleMessage, hd, Option.some.injEq]
          exact debounceCheck_skip_of_eq t _ hc.symm
    obtain ⟨sE, hstepE, hcE, hlE⟩ := hstep
    obtain ⟨sF, hrest, hcF, hlF⟩ :=
      ih sE p hcE hlE (fun t2 h2 => hq t2 (List.mem_cons_of_mem t h2))
    refine ⟨sF, ?_, hcF, hlF⟩
    simp only [runTicks, hstepE, hrest, Option.toList_none, List.nil_append]

/-- The check phase keeps current_program inside the program map. -/
lemma debounceCheck_current_mapped (t : Tick) (s : RouterState)
    (h : inMap s.current_program = true) :
    inMap ((debounceCheck t s).1).current_program = true := by
  rcases hl : lookupSfz s.last_requested_program with _ | path
  · rw [debounceCheck_skip_of_unmapped t s hl]; exact h
  · by_cases hc : s.last_requested_program ≠ s.current_program ∧
        DEBOUNCE_SECONDS ≤ t.tCheck - s.last_request_time
    · rw [debounceCheck_commit t s path hl hc.1 hc.2]
      cases hsend : t.sendOk with
      | false => simpa using h
      | true => simp [inMap, hl]
    · rcases not_and_or.mp hc with hx | hx
      · rw [debounceCheck_skip_of_eq t s (not_not.mp hx)]; exact h
      · rw [debounceCheck_skip_of_time t s (not_le.mp hx)]; exact h

/-- The check phase either leaves the persisted file alone or writes the
decimal string of a mapped program that it also sends this tick. -/
lemma debounceCheck_persisted (t : Tick) (s : RouterState) :
    ((debounceCheck t s).1).persisted = s.persisted ∨
    (∃ c ok, (debounceCheck t s).2 = some (s.last_requested_program, c, ok) ∧
      ((debounceCheck t s).1).persisted =
        some (toString s.last_requested_program) ∧
      inMap s.last_requested_program = true) := by
  rcases hl : lookupSfz s.last_requested_program with _ | path
  · rw [debounceCheck_skip_of_unmapped t s hl]; left; rfl
  · by_cases hc : s.last_requested_program ≠ s.current_program ∧
        DEBOUNCE_SECONDS ≤ t.tCheck - s.last_request_time
    · rw [debounceCheck_commit t s path hl hc.1 hc.2]
      cases hsave : t.saveOk with
      | false => left; simp
      | true =>
        right
        exact ⟨"load_instrument " ++ path ++ "\n", t.sendOk, rfl,
          by simp, by simp [inMap, hl]⟩
    · rcases not_and_or.mp hc with hx | hx
      · rw [debounceCheck_skip_of_eq t s (not_not.mp hx)]; left; rfl
      · rw [debounceCheck_skip_of_time t s (not_le.mp hx)]; left; rfl

/-- load_last_program only ever returns a key of SFZ_MAP. -/
lemma load_mapped (file : Option String) :
    inMap (load_last_program file) = true := by
  cases file with
  | none => decide
  | some content =>
    simp only [load_last_program]
    cases hp : parseInt (pyStrip content) with
    | none => decide
    | some val =>
      show inMap (if inMap val = true then val else 10) = true
      by_cases hv : inMap val = true
      · simp [hv]
      · simp only [Bool.not_eq_true] at hv
        rw [if_neg (by simp [hv])]
        decide

/-- Runs preserve membership of current_program in the program map. -/
lemma run_current_mapped : ∀ (ts : List Tick) (s sF : RouterState)
    (outs : List (Int × String × Bool)),
    runTicks s ts = some (sF, outs) →
    inMap s.current_program = true → inMap sF.current_program = true := by
  intro ts
  induction ts with
  | nil =>
    intro s sF outs hrun h
    simp only [runTicks, Option.some.injEq, Prod.mk.injEq] at hrun
    exact hrun.1 ▸ h
  | cons t ts ih =>
    intro s sF outs hrun h
    rcases hstep : stepTick t s with _ | ⟨s1, out⟩
    · rw [runTicks, hstep] at hrun
      exact Option.noConfusion hrun
    · rcases hrec : runTicks s1 ts with _ | ⟨sF', outs'⟩
      · simp only [runTicks, hstep, hrec] at hrun
        exact Option.noConfusion hrun
      · simp only [runTicks, hstep, hrec, Option.some.injEq,
          Prod.mk.injEq] at hrun
        obtain ⟨hsF, -⟩ := hrun
        obtain ⟨sE, hcurE, -, hdc⟩ := stepTick_via t s s1 out hstep
        have h1 : inMap s1.current_program = true := by
          have := debounceCheck_current_mapped t sE (by rw [hcurE]; exact h)
          rw [hdc] at this
          exact this
        exact hsF ▸ ih s1 sF' outs' hrec h1

/-- Emissions in any run carry a mapped program: run-level induction. -/
lemma run_emits_mapped : ∀ (ts : List Tick) (s sF : RouterState)
    (outs : List (Int × String × Bool)),
    runTicks s ts = some (sF, outs) →
    ∀ q c ok, (q, c, ok) ∈ outs → inMap q = true := by
  intro ts
  induction ts with
  | nil =>
    intro s sF outs hrun q c ok hmem
    simp only [runTicks, Option.some.injEq, Prod.mk.injEq] at hrun
    rw [← hrun.2] at hmem
    exact absurd hmem (List.not_mem_nil _)
  | cons t ts ih =>
    intro s sF outs hrun q c ok hmem
    rcases hstep : stepTick t s with _ | ⟨s1, out⟩
    · rw [runTicks, hstep] at hrun
      exact Option.noConfusion hrun
    · rcases hrec : runTicks s1 ts with _ | ⟨sF', outs'⟩
      · simp only [runTicks, hstep, hrec] at hrun
        exact Option.noConfusion hrun
      · simp only [runTicks, hstep, hrec, Option.some.injEq,
          Prod.mk.injEq] at hrun
        rw [← hrun.2] at hmem
        rcases List.mem_append.mp hmem with hin | hin
        · cases out with
          | none => exact absurd hin (List.not_mem_nil _)
          | some tr =>
            rcases List.mem_singleton.mp hin with rfl
            obtain ⟨sE, -, -, hdc⟩ := stepTick_via t s s1 (some (q, c, ok)) hstep
            obtain ⟨hq3, -, ⟨path, hpath, -⟩, -, -, -, -, -, -⟩ :=
              debounceCheck_commit_inv t sE s1 q c ok hdc
            rw [hq3]
            simp [inMap, hpath]
        · exact ih s1 sF' outs' hrec q c ok hin

/-- A nonempty list has a last element. -/
lemma getLast?_of_ne_nil : ∀ (l : List (Int × ℚ)), l ≠ [] →
    ∃ e, l.getLast? = some e := by
  intro l
  induction l with
  | nil => intro h; exact absurd rfl h
  | cons e l2 ih =>
    intro _
    cases l2 with
    | nil => exact ⟨e, rfl⟩
    | cons e2 l3 =>
      obtain ⟨ee, hee⟩ := ih (by simp)
      exact ⟨ee, by rw [List.getLast?_cons_cons]; exact hee⟩

/-! ## Claims -/

/-- C1: On every loop tick, the check phase commits (looks up the SFZ
path, persists the program, writes the load command) exactly when the
pending program is a key of SFZ_MAP, differs from current_program, and at
least DEBOUNCE_SECONDS have passed since the last qualifying Program
Change; when any condition fails no command is written and the state, in
particular current_program, is unchanged. -/
theorem commit_fires_exactly_on_conditions (t : Tick) (s : RouterState) :
    (∀ path, lookupSfz s.last_requested_program = some path →
      s.last_requested_program ≠ s.current_program →
      DEBOUNCE_SECONDS ≤ t.tCheck - s.last_request_time →
      debounceCheck t s =
        ({ s with
            persisted := if t.saveOk then
                some (toString s.last_requested_program)
              else s.persisted,
            current_program := if t.sendOk then s.last_requested_program
              else s.current_program },
         some (s.last_requested_program,
               "load_instrument " ++ path ++ "\n", t.sendOk))) ∧
    ((lookupSfz s.last_requested_program = none ∨
        s.last_requested_program = s.current_program ∨
        t.tCheck - s.last_request_time < DEBOUNCE_SECONDS) →
      debounceCheck t s = (s, none)) := by
  constructor
  · intro path hl hne ht
    exact debounceCheck_commit t s path hl hne ht
  · intro h
    rcases h with h | h | h
    · exact debounceCheck_skip_of_unmapped t s h
    · exact debounceCheck_skip_of_eq t s h
    · exact debounceCheck_skip_of_time t s h

theorem commit_fires_exactly_on_conditions_witness :
    debounceCheck
        { msg := none, tEvent := 1, tCheck := 1,
          sendOk := true, saveOk := true }
        { current_program := 10, last_requested_program := 11,
          last_request_time := 0, persisted := none } =
      ({ current_program := 11, last_requested_program := 11,
         last_request_time := 0, persisted := some "11" },
       some (11, "load_instrument /root/sfz/Clavinet/Clavinet.sfz\n",
             true)) ∧
    debounceCheck
        { msg := none, tEvent := 1, tCheck := 1,
          sendOk := true, saveOk := true }
        { current_program := 10, last_requested_program := 10,
          last_request_time := 0, persisted := none } =
      ({ current_program := 10, last_requested_program := 10,
         last_request_time := 0, persisted := none }, none) := by
  constructor
  · have h := (commit_fires_exactly_on_conditions
        { msg := none, tEvent := 1, tCheck := 1,
          sendOk := true, saveOk := true }
        { current_program := 10, last_requested_program := 11,
          last_request_time := 0, persisted := none }).1
      "/root/sfz/Clavinet/Clavinet.sfz" (by decide) (by decide) (by decide)
    exact h.trans (by decide)
  · exact (commit_fires_exactly_on_conditions _ _).2 (Or.inr (Or.inl rfl))

/-- C2: when a run starts settled and its qualifying Program Change events
are consecutively separated by less than DEBOUNCE_SECONDS, every load
command the run writes is for the program of the final event; no
intermediate program of the burst ever reaches the engine. -/
theorem coalesce_only_final_program_sent :
    ∀ (s0 : RouterState) (ts : List Tick) (lb : ℚ) (sF : RouterState)
      (outs : List (Int × String × Bool)) (evs : List (Int × ℚ)),
    s0.last_requested_program = s0.current_program →
    runTicks s0 ts = some (sF, outs) →
    TimesMono lb ts = true →
    qualEvents ts = evs →
    evs ≠ [] →
    ConsecGaps evs = true →
    ∀ q c ok, (q, c, ok) ∈ outs → ∃ tq, evs.getLast? = some (q, tq) := by
  intro s0 ts lb sF outs evs hquiet hrun hmono hevs hne hgaps q c ok hmem
  subst hevs
  have hb : Blocked s0 (qualEvents ts) = true := by
    cases hqe : qualEvents ts with
    | nil => rfl
    | cons e r =>
      obtain ⟨p1, t1⟩ := e
      simp only [Blocked, Bool.or_eq_true, beq_iff_eq]
      left
      exact hquiet
  have hq := run_coalesce ts s0 lb sF outs hrun hmono hgaps hb q c ok hmem
  obtain ⟨⟨pe, te⟩, hql⟩ := getLast?_of_ne_nil (qualEvents ts) hne
  have hqpe : q = pe := by
    rw [hq]
    simp [finalProg, hql]
  refine ⟨te, ?_⟩
  rw [hql, hqpe]

theorem coalesce_only_final_program_sent_witness :
    ∃ tq, ([((11 : Int), (1 : ℚ)), ((12 : Int), mkRat 5 4)]).getLast? =
      some ((12 : Int), tq) := by
  exact coalesce_only_final_program_sent
    { current_program := 10, last_requested_program := 10,
      last_request_time := 0, persisted := none }
    [{ msg := some [0xC0, 11], tEvent := 1, tCheck := 1,
       sendOk := true, saveOk := true },
     { msg := some [0xC0, 12], tEvent := mkRat 5 4, tCheck := mkRat 5 4,
       sendOk := true, saveOk := true },
     { msg := none, tEvent := 2, tCheck := 2,
       sendOk := true, saveOk := true }]
    0
    { current_program := 12, last_requested_program := 12,
      last_request_time := mkRat 5 4, persisted := some "12" }
    [(12,
      "load_instrument /root/sfz/K18-Upright-Piano/K18-Upright-Piano.sfz\n",
      true)]
    [((11 : Int), (1 : ℚ)), ((12 : Int), mkRat 5 4)]
    rfl (by decide) (by decide) (by decide) (by decide) (by decide)
    12 "load_instrument /root/sfz/K18-Upright-Piano/K18-Upright-Piano.sfz\n"
    true (by decide)

/-- C3: a qualifying Program Change (status 0xC0 on the common channel)
overwrites last_requested_program with the event program and
last_request_time with the current time unconditionally, for every state
of the loop, including a program equal to the already pending one. -/
theorem qualifying_event_rearms_debounce (status program : Nat)
    (rest : List Nat) (now : ℚ) (s : RouterState)
    (h1 : status &&& 0xF0 = 0xC0)
    (h2 : status &&& 0x0F = commonMidiChannel) :
    handleMessage (status :: program :: rest) now s =
      some { s with last_requested_program := (program : Int),
                    last_request_time := now } := by
  simp [handleMessage, decode, h1, h2]

theorem qualifying_event_rearms_debounce_witness :
    handleMessage [0xC0, 11] 2
        { current_program := 10, last_requested_program := 11,
          last_request_time := 0, persisted := none } =
      some { current_program := 10, last_requested_program := 11,
             last_request_time := 2, persisted := none } := by
  have h := qualifying_event_rearms_debounce 0xC0 11 [] 2
      { current_program := 10, last_requested_program := 11,
        last_request_time := 0, persisted := none } (by decide) (by decide)
  exact h.trans (by decide)

/-- C4: over any run of the loop, every load command written to the engine
carries a program that is a key of SFZ_MAP; a pending program outside the
map is never sent, however long it stays pending. -/
theorem unmapped_program_never_sent :
    ∀ (ts : List Tick) (s sF : RouterState)
      (outs : List (Int × String × Bool)),
    runTicks s ts = some (sF, outs) →
    ∀ q c ok, (q, c, ok) ∈ outs → inMap q = true := by
  exact run_emits_mapped

theorem unmapped_program_never_sent_witness :
    inMap 11 = true := by
  exact unmapped_program_never_sent
    [{ msg := none, tEvent := 1, tCheck := 1,
       sendOk := true, saveOk := true }]
    { current_program := 10, last_requested_program := 11,
      last_request_time := 0, persisted := none }
    { current_program := 11, last_requested_program := 11,
      last_request_time := 0, persisted := some "11" }
    [(11, "load_instrument /root/sfz/Clavinet/Clavinet.sfz\n", true)]
    (by decide) 11 "load_instrument /root/sfz/Clavinet/Clavinet.sfz\n"
    true (by decide)

/-- C5: when the engine send of a commit fails, current_program is
unchanged, so any later tick without a new qualifying event still
satisfies the commit condition and rewrites the same load command; when
the send succeeds, current_program becomes the committed program and all
later quiet ticks write nothing and leave the state untouched. -/
theorem send_failure_retry_until_success (t : Tick) (s s' : RouterState)
    (p : Int) (c : String) (ok : Bool)
    (h : debounceCheck t s = (s', some (p, c, ok))) :
    (t.sendOk = false →
      s'.current_program = s.current_program ∧
      ∀ t2 : Tick, NoQualTick t2 = true → t.tCheck ≤ t2.tCheck →
        ∃ s2, stepTick t2 s' = some (s2, some (p, c, t2.sendOk))) ∧
    (t.sendOk = true →
      s'.current_program = p ∧
      ∀ ts : List Tick, (∀ t2 ∈ ts, NoQualTick t2 = true) →
        runTicks s' ts = some (s', [])) := by
  obtain ⟨hq, hok, ⟨path, hpath, hcmd⟩, hne, ht, hlrp, hlrt, hcur, hper⟩ :=
    debounceCheck_commit_inv t s s' p c ok h
  constructor
  · intro hsf
    rw [hsf] at hcur
    simp only [Bool.false_eq_true, if_false] at hcur
    refine ⟨hcur, ?_⟩
    intro t2 hq2 hle
    have hlrp2 : s'.last_requested_program = p := by rw [hlrp, ← hq]
    have hpath2 : lookupSfz s'.last_requested_program = some path := by
      rw [hlrp]
      exact hpath
    have hne2 : s'.last_requested_program ≠ s'.current_program := by
      rw [hlrp, hcur]
      exact hne
    have ht2 : DEBOUNCE_SECONDS ≤ t2.tCheck - s'.last_request_time := by
      rw [hlrt]
      linarith
    have hcommit := debounceCheck_commit t2 s' path hpath2 hne2 ht2
    rcases hmsg : t2.msg with _ | data
    · have hstep2 : stepTick t2 s' = some (debounceCheck t2 s') := by
        simp only [stepTick, hmsg]
      rw [hcommit] at hstep2
      exact ⟨_, hstep2.trans (by rw [hlrp2, hcmd])⟩
    · have hd : decode data = some none := by
        simp only [NoQualTick, hmsg, beq_iff_eq] at hq2
        exact hq2
      have hstep2 : stepTick t2 s' = some (debounceCheck t2 s') := by
        simp only [stepTick, hmsg, handleMessage, hd]
      rw [hcommit] at hstep2
      exact ⟨_, hstep2.trans (by rw [hlrp2, hcmd])⟩
  · intro hst
    rw [hst] at hcur
    simp only [if_true] at hcur
    have hc2 : s'.current_program = p := by rw [hcur, ← hq]
    refine ⟨hc2, ?_⟩
    intro ts hts
    refine quiet_run ts s' ?_ hts
    rw [hlrp, ← hq, hc2]

theorem send_failure_retry_until_success_witness :
    ∃ s2, stepTick
        { msg := none, tEvent := 2, tCheck := 2,
          sendOk := true, saveOk := true }
        { current_program := 10, last_requested_program := 11,
          last_request_time := 0, persisted := some "11" } =
      some (s2, some ((11 : Int),
        "load_instrument /root/sfz/Clavinet/Clavinet.sfz\n", true)) := by
  have h := (send_failure_retry_until_success
      { msg := none, tEvent := 1, tCheck := 1,
        sendOk := false, saveOk := true }
      { current_program := 10, last_requested_program := 11,
        last_request_time := 0, persisted := none }
      { current_program := 10, last_requested_program := 11,
        last_request_time := 0, persisted := some "11" }
      11 "load_instrument /root/sfz/Clavinet/Clavinet.sfz\n" false
      (by decide)).1 rfl
  obtain ⟨-, hretry⟩ := h
  exact hretry
    { msg := none, tEvent := 2, tCheck := 2,
      sendOk := true, saveOk := true } (by decide) (by decide)

/-- C6: load_last_program returns the default program 10 when the file is
absent or unreadable, when its stripped contents do not parse as an
integer, and when the parsed value is not a key of SFZ_MAP; otherwise it
returns the persisted value.  All read and parse failures are absorbed:
the function is total. -/
theorem load_last_program_default_fallback :
    load_last_program none = 10 ∧
    (∀ content, parseInt (pyStrip content) = none →
      load_last_program (some content) = 10) ∧
    (∀ content val, parseInt (pyStrip content) = some val →
      inMap val = false → load_last_program (some content) = 10) ∧
    (∀ content val, parseInt (pyStrip content) = some val →
      inMap val = true → load_last_program (some content) = val) := by
  refine ⟨rfl, ?_, ?_, ?_⟩
  · intro content h
    simp [load_last_program, h]
  · intro content val h hv
    simp [load_last_program, h, hv]
  · intro content val h hv
    simp [load_last_program, h, hv]

theorem load_last_program_default_fallback_witness :
    load_last_program (some "garbage") = 10 ∧
    load_last_program (some "7") = 10 ∧
    load_last_program (some " 11 ") = 11 := by
  refine ⟨?_, ?_, ?_⟩
  · exact load_last_program_default_fallback.2.1 "garbage" (by decide)
  · exact load_last_program_default_fallback.2.2.1 "7" 7
      (by decide) (by decide)
  · exact load_last_program_default_fallback.2.2.2 " 11 " 11
      (by decide) (by decide)

/-- C7 counterexample: the loop persists the program before attempting
the engine send.  On this one-tick run the send fails (sendOk = false),
current_program stays 10, yet the persisted store ends holding "11" -
a program whose instrument was never successfully loaded.  This refutes
the claim that a value is persisted only after, or together with, a
successful engine send. -/
theorem persist_precedes_send_counterexample :
    runTicks
        { current_program := 10, last_requested_program := 11,
          last_request_time := 0, persisted := none }
        [{ msg := none, tEvent := 1, tCheck := 1,
           sendOk := false, saveOk := true }] =
      some ({ current_program := 10, last_requested_program := 11,
              last_request_time := 0, persisted := some "11" },
            [(11, "load_instrument /root/sfz/Clavinet/Clavinet.sfz\n",
              false)]) := by
  decide

/-- C7 (amended): whenever a run changes the persisted store, the stored
value is the decimal string of a program that is a key of SFZ_MAP and for
which a load command was written in the same tick as the store write; the
send of that command may nonetheless have failed, so the stored program is
not necessarily loaded. -/
theorem persisted_value_was_attempted :
    ∀ (ts : List Tick) (s sF : RouterState)
      (outs : List (Int × String × Bool)),
    runTicks s ts = some (sF, outs) →
    ∀ str, sF.persisted = some str →
      s.persisted = some str ∨
      ∃ p c ok, str = toString p ∧ inMap p = true ∧ (p, c, ok) ∈ outs := by
  intro ts
  induction ts with
  | nil =>
    intro s sF outs hrun str hstr
    simp only [runTicks, Option.some.injEq, Prod.mk.injEq] at hrun
    left
    rw [hrun.1]
    exact hstr
  | cons t ts ih =>
    intro s sF outs hrun str hstr
    rcases hstep : stepTick t s with _ | ⟨s1, out⟩
    · rw [runTicks, hstep] at hrun
      exact Option.noConfusion hrun
    · rcases hrec : runTicks s1 ts with _ | ⟨sF', outs'⟩
      · simp only [runTicks, hstep, hrec] at hrun
        exact Option.noConfusion hrun
      · simp only [runTicks, hstep, hrec, Option.some.injEq,
          Prod.mk.injEq] at hrun
        obtain ⟨hsF, houts⟩ := hrun
        rcases ih s1 sF' outs' hrec str (by rw [hsF]; exact hstr) with
          hold | ⟨p, c, ok, hstr2, hmap, hmem2⟩
        · obtain ⟨sE, -, hperE, hdc⟩ := stepTick_via t s s1 out hstep
          rcases debounceCheck_persisted t sE with
            hsame | ⟨c2, ok2, hemit, hwrote, hmap2⟩
          · left
            rw [hdc] at hsame
            have hsame2 : s1.persisted = sE.persisted := hsame
            rw [← hperE, ← hsame2]
            exact hold
          · right
            rw [hdc] at hemit hwrote
            have hemit2 : out = some (sE.last_requested_program, c2, ok2) :=
              hemit
            have hwrote2 : s1.persisted =
                some (toString sE.last_requested_program) := hwrote
            rw [hold] at hwrote2
            refine ⟨sE.last_requested_program, c2, ok2,
              (Option.some.inj hwrote2), hmap2, ?_⟩
            rw [← houts]
            apply List.mem_append.mpr
            left
            rw [hemit2]
            exact List.mem_singleton.mpr rfl
        · right
          exact ⟨p, c, ok, hstr2, hmap,
            by rw [← houts]; exact List.mem_append.mpr (Or.inr hmem2)⟩

theorem persisted_value_was_attempted_witness :
    ({ current_program := 10, last_requested_program := 11,
       last_request_time := 0, persisted := none } : RouterState).persisted =
      some "11" ∨
    ∃ p c ok, "11" = toString p ∧ inMap p = true ∧
      (p, c, ok) ∈ [((11 : Int),
        "load_instrument /root/sfz/Clavinet/Clavinet.sfz\n", true)] := by
  exact persisted_value_was_attempted
    [{ msg := none, tEvent := 1, tCheck := 1,
       sendOk := true, saveOk := true }]
    { current_program := 10, last_requested_program := 11,
      last_request_time := 0, persisted := none }
    { current_program := 11, last_requested_program := 11,
      last_request_time := 0, persisted := some "11" }
    [(11, "load_instrument /root/sfz/Clavinet/Clavinet.sfz\n", true)]
    (by decide) "11" (by decide)

/-- C8: after a successful commit of program p, a run whose qualifying
events all repeat p writes no further load command, and current_program
stays p: committing the same program twice in a row never produces a
second engine command. -/
theorem committed_program_idempotent (t0 : Tick) (s0 s : RouterState)
    (p : Int) (c : String)
    (hstep : stepTick t0 s0 = some (s, some (p, c, true))) :
    ∀ ts : List Tick, (∀ t2 ∈ ts, TickSeesOnly p t2 = true) →
      ∃ sF, runTicks s ts = some (sF, []) ∧ sF.current_program = p := by
  intro ts hts
  obtain ⟨sE, -, -, hdc⟩ := stepTick_via t0 s0 s (some (p, c, true)) hstep
  obtain ⟨hq, hok, -, -, -, hlrp, -, hcur, -⟩ :=
    debounceCheck_commit_inv t0 sE s p c true hdc
  rw [← hok] at hcur
  simp only [if_true] at hcur
  have hc : s.current_program = p := by rw [hcur, ← hq]
  have hl : s.last_requested_program = p := by rw [hlrp, ← hq]
  obtain ⟨sF, hrun, hcF, -⟩ := seesOnly_run ts s p hc hl hts
  exact ⟨sF, hrun, hcF⟩

theorem committed_program_idempotent_witness :
    ∃ sF, runTicks
        { current_program := 11, last_requested_program := 11,
          last_request_time := 0, persisted := some "11" }
        [{ msg := some [0xC0, 11], tEvent := 2, tCheck := 2,
           sendOk := true, saveOk := true }] = some (sF, []) ∧
      sF.current_program = 11 := by
  exact committed_program_idempotent
    { msg := none, tEvent := 1, tCheck := 1,
      sendOk := true, saveOk := true }
    { current_program := 10, last_requested_program := 11,
      last_request_time := 0, persisted := none }
    { current_program := 11, last_requested_program := 11,
      last_request_time := 0, persisted := some "11" }
    11 "load_instrument /root/sfz/Clavinet/Clavinet.sfz\n"
    (by decide)
    [{ msg := some [0xC0, 11], tEvent := 2, tCheck := 2,
       sendOk := true, saveOk := true }]
    (by decide)

/-- C9 counterexample: a one-byte Program Change message [0xC0] on the
common channel makes the event-handling step index data[1] out of range
(a Python IndexError), so the loop iteration faults instead of completing:
the event-handling step is not total on arbitrary byte lists. -/
theorem one_byte_program_change_faults :
    stepTick
        { msg := some [0xC0], tEvent := 0, tCheck := 0,
          sendOk := true, saveOk := true }
        { current_program := 10, last_requested_program := 10,
          last_request_time := 0, persisted := none } = none := by
  decide

/-- C9 (amended): the event-handling step completes exactly on messages
that are nonempty and, when their status byte is a Program Change on the
common channel, carry at least one data byte; it faults (IndexError) on
the empty message and on a one-byte common-channel Program Change. -/
theorem event_handling_total_iff_wellformed (data : List Nat) (now : ℚ)
    (s : RouterState) :
    (handleMessage data now s).isSome = true ↔
      ∃ status rest, data = status :: rest ∧
        ((status &&& 0xF0 == 0xC0 &&
            status &&& 0x0F == commonMidiChannel) = true → rest ≠ []) := by
  cases data with
  | nil => simp [handleMessage, decode]
  | cons status rest =>
    cases hq : (status &&& 0xF0 == 0xC0 &&
        status &&& 0x0F == commonMidiChannel) with
    | false =>
      refine iff_of_true ?_ ⟨status, rest, rfl, ?_⟩
      · simp [handleMessage, decode, hq]
      · intro hco
        rw [hq] at hco
        exact Bool.noConfusion hco
    | true =>
      cases rest with
      | nil =>
        refine iff_of_false ?_ ?_
        · simp [handleMessage, decode, hq]
        · rintro ⟨st2, r2, heq, himp⟩
          obtain ⟨h1, h2⟩ := List.cons.injEq .. |>.mp heq
          subst h1
          rw [← h2] at himp
          exact himp hq rfl
      | cons b bs =>
        refine iff_of_true ?_ ⟨status, b :: bs, rfl, fun _ => ?_⟩
        · simp [handleMessage, decode, hq]
        · exact List.cons_ne_nil b bs

theorem event_handling_total_iff_wellformed_witness :
    (handleMessage [0xC0, 11] 0
        { current_program := 10, last_requested_program := 10,
          last_request_time := 0, persisted := none }).isSome = true := by
  exact (event_handling_total_iff_wellformed [0xC0, 11] 0
      { current_program := 10, last_requested_program := 10,
        last_request_time := 0, persisted := none }).mpr
    ⟨0xC0, [11], rfl, fun _ => by decide⟩

/-- C10: current_program is always a key of SFZ_MAP: load_last_program
only returns keys (the default 10 is one), the loop state is initialised
from its result, and every run of the loop preserves membership because
each assignment to current_program is guarded by the map lookup. -/
theorem current_program_always_mapped :
    (∀ file, inMap (load_last_program file) = true) ∧
    (∀ file t0, inMap (initialState file t0).current_program = true) ∧
    (∀ (ts : List Tick) (s sF : RouterState)
        (outs : List (Int × String × Bool)),
      runTicks s ts = some (sF, outs) →
      inMap s.current_program = true → inMap sF.current_program = true) :=
  ⟨load_mapped, fun file _ => load_mapped file, run_current_mapped⟩

theorem current_program_always_mapped_witness :
    inMap ({ current_program := 11, last_requested_program := 11,
             last_request_time := 0,
             persisted := some "11" } : RouterState).current_program =
      true := by
  exact current_program_always_mapped.2.2
    [{ msg := none, tEvent := 1, tCheck := 1,
       sendOk := true, saveOk := true }]
    { current_program := 10, last_requested_program := 11,
      last_request_time := 0, persisted := none }
    { current_program := 11, last_requested_program := 11,
      last_request_time := 0, persisted := some "11" }
    [(11, "load_instrument /root/sfz/Clavinet/Clavinet.sfz\n", true)]
    (by decide) (by decide)

end SfzRouter
